import Mathlib

/-!
Verification of the ha_gateway request-routing core against its design
specification.  The per-node circuit breaker (`src/upstream.rs`), the
health-aware round-robin load balancer (`src/load_balancer.rs`) and the
TTL+LRU response cache (`src/cache.rs`) are shallowly embedded as pure
Lean functions; wall-clock instants are modelled as natural numbers
(seconds) passed explicitly, and the transport outcome of an RPC call is
an explicit oracle argument.
-/

/-- `MAX_CONSECUTIVE_FAILURES` from `src/upstream.rs`: failures before the
circuit opens. -/
def MAX_CONSECUTIVE_FAILURES : Nat := 3

/-- `COOLDOWN_DURATION` from `src/upstream.rs`, in seconds. -/
def COOLDOWN_DURATION : Nat := 60

/-- `NodeCondition` from `src/upstream.rs`. -/
inductive NodeCondition where
  | Healthy
  | Unhealthy
deriving DecidableEq, Repr

/-- One upstream node's breaker state: the `config.name` identity, the
`NodeState` pair (`health_status`, `last_failure_time`) guarded by the
RwLock in the Rust code, and the separate `consecutive_failures` atomic
counter, flattened into one record.  Instants are naturals. -/
structure UpstreamNode where
  name : String
  health_status : NodeCondition
  last_failure_time : Option Nat
  consecutive_failures : Nat
deriving DecidableEq, Repr

/-- `UpstreamNode::new`: Healthy, no failure timestamp, zero failures. -/
def UpstreamNode.new (name : String) : UpstreamNode :=
  { name := name
    health_status := NodeCondition.Healthy
    last_failure_time := none
    consecutive_failures := 0 }

/-- `UpstreamNode::record_success` (`src/upstream.rs` lines 209-223): swap
the counter to 0; if the condition is Unhealthy, mark Healthy and clear
the failure timestamp. -/
def record_success (s : UpstreamNode) : UpstreamNode :=
  let s' := { s with consecutive_failures := 0 }
  if s'.health_status = NodeCondition.Unhealthy then
    { s' with health_status := NodeCondition.Healthy, last_failure_time := none }
  else s'

/-- `UpstreamNode::record_failure` (`src/upstream.rs` lines 231-246):
fetch-add the counter; when the new count reaches the threshold and the
condition is still Healthy, mark Unhealthy and stamp the current instant. -/
def record_failure (s : UpstreamNode) (now : Nat) : UpstreamNode :=
  let failures := s.consecutive_failures + 1
  let s' := { s with consecutive_failures := failures }
  if MAX_CONSECUTIVE_FAILURES ≤ failures then
    if s'.health_status = NodeCondition.Healthy then
      { s' with health_status := NodeCondition.Unhealthy, last_failure_time := some now }
    else s'
  else s'

/-- `UpstreamNode::is_healthy` (`src/upstream.rs` lines 126-144).  The Rust
function takes only a read lock, so the embedding is a pure function of
the state and the current instant; `Instant::duration_since` is `now - lf`
with saturating (Nat) subtraction. -/
def is_healthy (s : UpstreamNode) (now : Nat) : Bool :=
  match s.health_status with
  | NodeCondition.Healthy => true
  | NodeCondition.Unhealthy =>
    match s.last_failure_time with
    | some lf => if COOLDOWN_DURATION ≤ now - lf then true else false
    | none => false

/-- `n` consecutive `record_failure` calls starting from `s`; the `i`-th
recorded failure (counting from 1) happens at instant `ts (i-1)`. -/
def runFailures (s : UpstreamNode) (ts : Nat → Nat) : Nat → UpstreamNode
  | 0 => s
  | n + 1 => record_failure (runFailures s ts n) (ts n)

-- Helper lemmas about the breaker ---------------------------------------

theorem record_failure_counter (s : UpstreamNode) (t : Nat) :
    (record_failure s t).consecutive_failures = s.consecutive_failures + 1 := by
  obtain ⟨nm, st, lf, c⟩ := s
  simp only [record_failure]
  split <;> (try split) <;> rfl

theorem record_failure_unhealthy (s : UpstreamNode) (t : Nat)
    (h : s.health_status = NodeCondition.Unhealthy) :
    record_failure s t =
      { s with consecutive_failures := s.consecutive_failures + 1 } := by
  obtain ⟨nm, st, lf, c⟩ := s
  simp only at h
  subst h
  simp [record_failure]

theorem record_failure_name (s : UpstreamNode) (t : Nat) :
    (record_failure s t).name = s.name := by
  obtain ⟨nm, st, lf, c⟩ := s
  simp only [record_failure]
  split <;> (try split) <;> rfl

theorem runFailures_le_two (s : UpstreamNode) (ts : Nat → Nat)
    (hst : s.health_status = NodeCondition.Healthy)
    (hc : s.consecutive_failures = 0) :
    ∀ n, n ≤ 2 →
      runFailures s ts n =
        { s with consecutive_failures := n } := by
  obtain ⟨nm, st, lf, c⟩ := s
  simp only at hst hc
  subst hst hc
  intro n hn
  interval_cases n
  · rfl
  · simp [runFailures, record_failure, MAX_CONSECUTIVE_FAILURES]
  · simp [runFailures, record_failure, MAX_CONSECUTIVE_FAILURES]

theorem runFailures_ge_three (s : UpstreamNode) (ts : Nat → Nat)
    (hst : s.health_status = NodeCondition.Healthy)
    (hc : s.consecutive_failures = 0) :
    ∀ n, 3 ≤ n →
      runFailures s ts n =
        { s with health_status := NodeCondition.Unhealthy
                 last_failure_time := some (ts 2)
                 consecutive_failures := n } := by
  intro n hn
  obtain ⟨m, rfl⟩ : ∃ m, n = m + 3 := ⟨n - 3, by omega⟩
  induction m with
  | zero =>
    have h2 := runFailures_le_two s ts hst hc 2 (by omega)
    show record_failure (runFailures s ts 2) (ts 2) = _
    rw [h2]
    simp [record_failure, hst, MAX_CONSECUTIVE_FAILURES]
  | succ k ih =>
    have hk := ih (by omega)
    show record_failure (runFailures s ts (k + 3)) (ts (k + 3)) = _
    rw [hk, record_failure_unhealthy _ _ (by rfl)]

-- C1 --------------------------------------------------------------------

/-- C1: each recorded failure increments the consecutive-failure counter
by 1; starting from a Healthy node with counter 0, the node stays Healthy
with no timestamp after at most threshold-1 = 2 failures, and the
threshold-th (3rd) failure — and only that one — flips the condition to
Unhealthy and stamps that failure's instant, later failures leaving the
timestamp at the tripping instant; a failure recorded while already
Unhealthy increments the counter but does not touch the timestamp. -/
theorem record_failure_claim :
    (∀ s t, (record_failure s t).consecutive_failures
        = s.consecutive_failures + 1) ∧
    (∀ s t, s.health_status = NodeCondition.Unhealthy →
      (record_failure s t).last_failure_time = s.last_failure_time ∧
      (record_failure s t).consecutive_failures = s.consecutive_failures + 1) ∧
    (∀ (name : String) (ts : Nat → Nat) n, n ≤ 2 →
      runFailures (UpstreamNode.new name) ts n =
        { UpstreamNode.new name with consecutive_failures := n }) ∧
    (∀ (name : String) (ts : Nat → Nat) n, 3 ≤ n →
      runFailures (UpstreamNode.new name) ts n =
        { name := name
          health_status := NodeCondition.Unhealthy
          last_failure_time := some (ts 2)
          consecutive_failures := n }) := by
  refine ⟨record_failure_counter, ?_, ?_, ?_⟩
  · intro s t h
    rw [record_failure_unhealthy s t h]
    exact ⟨rfl, rfl⟩
  · intro name ts n hn
    exact runFailures_le_two (UpstreamNode.new name) ts rfl rfl n hn
  · intro name ts n hn
    exact runFailures_ge_three (UpstreamNode.new name) ts rfl rfl n hn

/-- C1 witness: 3 recorded failures at instants 10, 20, 30 trip the node
exactly at the third failure with timestamp 30, while 2 leave it Healthy;
a 4th failure while Unhealthy keeps the timestamp at 30. -/
theorem record_failure_claim_witness :
    runFailures (UpstreamNode.new "N1") (fun i => 10 * (i + 1)) 2 =
      { UpstreamNode.new "N1" with consecutive_failures := 2 } ∧
    runFailures (UpstreamNode.new "N1") (fun i => 10 * (i + 1)) 3 =
      { name := "N1"
        health_status := NodeCondition.Unhealthy
        last_failure_time := some 30
        consecutive_failures := 3 } ∧
    (record_failure
        { name := "N1"
          health_status := NodeCondition.Unhealthy
          last_failure_time := some 30
          consecutive_failures := 3 } 40).last_failure_time = some 30 := by
  refine ⟨?_, ?_, ?_⟩
  · exact record_failure_claim.2.2.1 "N1" (fun i => 10 * (i + 1)) 2 (by omega)
  · exact record_failure_claim.2.2.2 "N1" (fun i => 10 * (i + 1)) 3 (by omega)
  · exact (record_failure_claim.2.1
      { name := "N1"
        health_status := NodeCondition.Unhealthy
        last_failure_time := some 30
        consecutive_failures := 3 } 40 rfl).1

-- C2 --------------------------------------------------------------------

/-- C2: one recorded success resets the consecutive-failure counter to 0
from any state; from Unhealthy it also restores the Healthy condition and
clears the last-failure timestamp; from Healthy it changes neither the
condition nor the timestamp. -/
theorem record_success_claim (s : UpstreamNode) :
    (record_success s).consecutive_failures = 0 ∧
    (s.health_status = NodeCondition.Unhealthy →
      (record_success s).health_status = NodeCondition.Healthy ∧
      (record_success s).last_failure_time = none) ∧
    (s.health_status = NodeCondition.Healthy →
      (record_success s).health_status = s.health_status ∧
      (record_success s).last_failure_time = s.last_failure_time) := by
  obtain ⟨nm, st, lf, c⟩ := s
  cases st <;> simp [record_success]

/-- C2 witness: success on a tripped node (Unhealthy, timestamp 5,
counter 7) yields Healthy, no timestamp, counter 0; success on a Healthy
node with counter 2 only resets the counter. -/
theorem record_success_claim_witness :
    ((record_success
        { name := "N1"
          health_status := NodeCondition.Unhealthy
          last_failure_time := some 5
          consecutive_failures := 7 }).consecutive_failures = 0 ∧
      (record_success
        { name := "N1"
          health_status := NodeCondition.Unhealthy
          last_failure_time := some 5
          consecutive_failures := 7 }).health_status = NodeCondition.Healthy ∧
      (record_success
        { name := "N1"
          health_status := NodeCondition.Unhealthy
          last_failure_time := some 5
          consecutive_failures := 7 }).last_failure_time = none) ∧
    ((record_success
        { name := "N2"
          health_status := NodeCondition.Healthy
          last_failure_time := none
          consecutive_failures := 2 }).health_status = NodeCondition.Healthy ∧
      (record_success
        { name := "N2"
          health_status := NodeCondition.Healthy
          last_failure_time := none
          consecutive_failures := 2 }).last_failure_time = none) := by
  have h1 := record_success_claim
    { name := "N1"
      health_status := NodeCondition.Unhealthy
      last_failure_time := some 5
      consecutive_failures := 7 }
  have h2 := record_success_claim
    { name := "N2"
      health_status := NodeCondition.Healthy
      last_failure_time := none
      consecutive_failures := 2 }
  exact ⟨⟨h1.1, (h1.2.1 rfl).1, (h1.2.1 rfl).2⟩,
    ⟨(h2.2.2 rfl).1, (h2.2.2 rfl).2⟩⟩

-- C3 --------------------------------------------------------------------

/-- C3: `is_healthy` is true on a Healthy node; on an Unhealthy node
carrying a failure timestamp it is false while the elapsed time since the
timestamp is below the 60s cooldown and true once the elapsed time
reaches the cooldown.  The embedding is a pure function of the state (the
Rust code takes only a read lock), so the stored condition, counter and
timestamp are unchanged by construction. -/
theorem is_healthy_claim (s : UpstreamNode) (now : Nat) :
    (s.health_status = NodeCondition.Healthy → is_healthy s now = true) ∧
    (∀ lf, s.health_status = NodeCondition.Unhealthy →
      s.last_failure_time = some lf →
      (now - lf < COOLDOWN_DURATION → is_healthy s now = false) ∧
      (COOLDOWN_DURATION ≤ now - lf → is_healthy s now = true)) := by
  obtain ⟨nm, st, lf0, c⟩ := s
  constructor
  · intro h
    simp only at h
    subst h
    rfl
  · intro lf hst hlf
    simp only at hst hlf
    subst hst hlf
    constructor
    · intro hlt
      simp [is_healthy, Nat.not_le_of_lt hlt]
    · intro hge
      simp [is_healthy, hge]

/-- C3 witness: a node tripped at instant 100 is not eligible at instant
159 (59s elapsed) and eligible again at instant 160 (60s elapsed); a
Healthy node is always eligible. -/
theorem is_healthy_claim_witness :
    is_healthy (UpstreamNode.new "N1") 0 = true ∧
    is_healthy
      { name := "N2"
        health_status := NodeCondition.Unhealthy
        last_failure_time := some 100
        consecutive_failures := 3 } 159 = false ∧
    is_healthy
      { name := "N2"
        health_status := NodeCondition.Unhealthy
        last_failure_time := some 100
        consecutive_failures := 3 } 160 = true := by
  refine ⟨(is_healthy_claim (UpstreamNode.new "N1") 0).1 rfl, ?_, ?_⟩
  · exact ((is_healthy_claim
      { name := "N2"
        health_status := NodeCondition.Unhealthy
        last_failure_time := some 100
        consecutive_failures := 3 } 159).2 100 rfl rfl).1 (by decide)
  · exact ((is_healthy_claim
      { name := "N2"
        health_status := NodeCondition.Unhealthy
        last_failure_time := some 100
        consecutive_failures := 3 } 160).2 100 rfl rfl).2 (by decide)

-- RPC call path ----------------------------------------------------------

/-- `UpstreamNode::call_rpc_internal` (`src/upstream.rs` lines 176-200).
The transport outcome (connection error, HTTP status error, parse error,
or RPC-level error versus a clean response) is an explicit oracle
`outcome`; the response body is irrelevant to the breaker and elided.  On
a clean response the function records a success; on any error it returns
the error without touching the breaker. -/
def call_rpc_internal (s : UpstreamNode) (outcome : Except String Unit) :
    Except String Unit × UpstreamNode :=
  match outcome with
  | Except.ok _ => (Except.ok (), record_success s)
  | Except.error e => (Except.error e, s)

/-- `UpstreamNode::call_rpc` (`src/upstream.rs` lines 169-174): delegate
to `call_rpc_internal` and record a failure (stamped `now`) on error. -/
def call_rpc (s : UpstreamNode) (now : Nat) (outcome : Except String Unit) :
    Except String Unit × UpstreamNode :=
  match call_rpc_internal s outcome with
  | (Except.ok r, s') => (Except.ok r, s')
  | (Except.error e, s') => (Except.error e, record_failure s' now)

/-- `UpstreamNode::check_health` (`src/upstream.rs` lines 147-166): probe
via `call_rpc_internal`; on success record a success (a second time, the
first being inside `call_rpc_internal`) and return true; on error record
a failure and return false. -/
def check_health (s : UpstreamNode) (now : Nat)
    (outcome : Except String Unit) : Bool × UpstreamNode :=
  match call_rpc_internal s outcome with
  | (Except.ok _, s') => (true, record_success s')
  | (Except.error _, s') => (false, record_failure s' now)

/-- `UpstreamNode::get_status` (`src/upstream.rs` lines 257-259). -/
def get_status (s : UpstreamNode) : NodeCondition :=
  s.health_status

-- Event sequences --------------------------------------------------------

/-- One recorded call outcome: a success, or a failure at instant `t`. -/
inductive Event where
  | success
  | failure (t : Nat)

/-- Apply one recorded outcome to the breaker state. -/
def applyEvent (s : UpstreamNode) : Event → UpstreamNode
  | Event.success => record_success s
  | Event.failure t => record_failure s t

/-- Replay a sequence of recorded outcomes from state `s`. -/
def runEvents (s : UpstreamNode) (evs : List Event) : UpstreamNode :=
  evs.foldl applyEvent s

/-- The timestamp-presence invariant of the breaker. -/
def TimestampInv (s : UpstreamNode) : Prop :=
  s.health_status = NodeCondition.Unhealthy ↔ s.last_failure_time ≠ none

theorem record_success_healthy (s : UpstreamNode)
    (h : s.health_status = NodeCondition.Healthy) :
    record_success s = { s with consecutive_failures := 0 } := by
  obtain ⟨nm, st, lf, c⟩ := s
  simp only at h
  subst h
  simp [record_success]

theorem record_success_unhealthy (s : UpstreamNode)
    (h : s.health_status = NodeCondition.Unhealthy) :
    record_success s =
      { name := s.name
        health_status := NodeCondition.Healthy
        last_failure_time := none
        consecutive_failures := 0 } := by
  obtain ⟨nm, st, lf, c⟩ := s
  simp only at h
  subst h
  simp [record_success]

theorem timestampInv_step (s : UpstreamNode) (e : Event)
    (h : TimestampInv s) : TimestampInv (applyEvent s e) := by
  obtain ⟨nm, st, lf, c⟩ := s
  cases e with
  | success =>
    cases st <;> simp_all [TimestampInv, applyEvent, record_success]
  | failure t =>
    cases st with
    | Healthy =>
      simp [TimestampInv, applyEvent, record_failure] at h ⊢
      split
      · simp
      · simpa using h
    | Unhealthy =>
      rw [applyEvent, record_failure_unhealthy _ _ (by rfl)]
      simpa [TimestampInv] using h

theorem timestampInv_runEvents (evs : List Event) (s : UpstreamNode)
    (h : TimestampInv s) : TimestampInv (runEvents s evs) := by
  induction evs generalizing s with
  | nil => exact h
  | cons e rest ih => exact ih (applyEvent s e) (timestampInv_step s e h)

-- C9 --------------------------------------------------------------------

/-- C9: along any sequence of recorded successes and failures from the
initial state, the condition is Unhealthy exactly when the last-failure
timestamp is present; moreover the timestamp is (re)written exactly by a
failure that transitions Healthy to Unhealthy — a failure that leaves the
condition unchanged leaves the timestamp unchanged — and it is cleared
exactly by a success taken from Unhealthy, a success from Healthy leaving
the timestamp as it was. -/
theorem timestamp_invariant_claim :
    (∀ (name : String) (evs : List Event),
      (runEvents (UpstreamNode.new name) evs).health_status
          = NodeCondition.Unhealthy ↔
        (runEvents (UpstreamNode.new name) evs).last_failure_time ≠ none) ∧
    (∀ s t, s.health_status = NodeCondition.Healthy →
      (record_failure s t).health_status = NodeCondition.Unhealthy →
      (record_failure s t).last_failure_time = some t) ∧
    (∀ s t, (record_failure s t).health_status = s.health_status →
      (record_failure s t).last_failure_time = s.last_failure_time) ∧
    (∀ s, s.health_status = NodeCondition.Unhealthy →
      (record_success s).last_failure_time = none) ∧
    (∀ s, s.health_status = NodeCondition.Healthy →
      (record_success s).last_failure_time = s.last_failure_time) := by
  refine ⟨?_, ?_, ?_, ?_, ?_⟩
  · intro name evs
    exact timestampInv_runEvents evs (UpstreamNode.new name) (by simp [TimestampInv, UpstreamNode.new])
  · intro s t hh hu
    obtain ⟨nm, st, lf, c⟩ := s
    simp only at hh
    subst hh
    by_cases hm : MAX_CONSECUTIVE_FAILURES ≤ c + 1
    · simp [record_failure, hm]
    · simp [record_failure, hm] at hu
  · intro s t hsame
    obtain ⟨nm, st, lf, c⟩ := s
    cases st with
    | Healthy =>
      by_cases hm : MAX_CONSECUTIVE_FAILURES ≤ c + 1
      · simp [record_failure, hm] at hsame
      · simp [record_failure, hm]
    | Unhealthy =>
      rw [record_failure_unhealthy _ _ (by rfl)]
  · intro s h
    rw [record_success_unhealthy s h]
  · intro s h
    rw [record_success_healthy s h]

/-- C9 witness: after failures at 1,2,3 then a success then a failure at
9, the invariant holds at each stage; the trip at instant 3 stamps 3, the
success clears it, and a lone failure from Healthy leaves it absent. -/
theorem timestamp_invariant_claim_witness :
    ((runEvents (UpstreamNode.new "N1")
        [Event.failure 1, Event.failure 2, Event.failure 3, Event.success,
          Event.failure 9]).health_status = NodeCondition.Unhealthy ↔
      (runEvents (UpstreamNode.new "N1")
        [Event.failure 1, Event.failure 2, Event.failure 3, Event.success,
          Event.failure 9]).last_failure_time ≠ none) ∧
    (record_failure
      { name := "N1"
        health_status := NodeCondition.Healthy
        last_failure_time := none
        consecutive_failures := 2 } 3).last_failure_time = some 3 ∧
    (record_failure (UpstreamNode.new "N1") 7).last_failure_time = none ∧
    (record_success
      { name := "N1"
        health_status := NodeCondition.Unhealthy
        last_failure_time := some 3
        consecutive_failures := 3 }).last_failure_time = none ∧
    (record_success (UpstreamNode.new "N1")).last_failure_time = none := by
  refine ⟨timestamp_invariant_claim.1 "N1" _, ?_, ?_, ?_, ?_⟩
  · exact timestamp_invariant_claim.2.1
      { name := "N1"
        health_status := NodeCondition.Healthy
        last_failure_time := none
        consecutive_failures := 2 } 3 rfl (by decide)
  · exact timestamp_invariant_claim.2.2.1 (UpstreamNode.new "N1") 7 (by decide)
  · exact timestamp_invariant_claim.2.2.2.1
      { name := "N1"
        health_status := NodeCondition.Unhealthy
        last_failure_time := some 3
        consecutive_failures := 3 } rfl
  · exact timestamp_invariant_claim.2.2.2.2 (UpstreamNode.new "N1") rfl

-- C10 and C8 -------------------------------------------------------------

theorem record_success_status (s : UpstreamNode) :
    (record_success s).health_status = NodeCondition.Healthy := by
  obtain ⟨nm, st, lf, c⟩ := s
  cases st <;> simp [record_success]

theorem record_success_idem (s : UpstreamNode) :
    record_success (record_success s) = record_success s := by
  obtain ⟨nm, st, lf, c⟩ := s
  cases st <;> simp [record_success]

/-- C10: `record_success` is idempotent, so the double success recording
performed by a successful health probe (once inside `call_rpc_internal`,
once in `check_health` itself) leaves the node exactly as a single
recorded success would. -/
theorem success_idempotent_claim :
    (∀ s, record_success (record_success s) = record_success s) ∧
    (∀ s t, check_health s t (Except.ok ()) = (true, record_success s)) := by
  refine ⟨record_success_idem, ?_⟩
  intro s t
  show (true, record_success (record_success s)) = (true, record_success s)
  rw [record_success_idem]

/-- C8 counterexample: on a fresh Healthy node a failed probe returns
false, yet the recorded failure (counter 1 < threshold) leaves the
condition Healthy — the returned boolean is the probe outcome, not a
snapshot of the declared condition after recording. -/
theorem check_health_claim_counterexample :
    ¬ ((check_health (UpstreamNode.new "N1") 0 (Except.error "boom")).1
          = true ↔
        (check_health (UpstreamNode.new "N1") 0
            (Except.error "boom")).2.health_status
          = NodeCondition.Healthy) := by
  decide

/-- C8 amended: `check_health` feeds the probe outcome into the same
recording path as real traffic — a successful probe records a success
(twice, which by idempotence equals once) and a failed probe records a
failure — and returns true exactly when the probe succeeded; after a
successful probe the returned true does match the Healthy condition, but
after a failed probe the returned false is the probe outcome, not a
snapshot of the stored condition. -/
theorem check_health_amended_claim (s : UpstreamNode) (t : Nat)
    (e : String) :
    check_health s t (Except.ok ()) = (true, record_success s) ∧
    check_health s t (Except.error e) = (false, record_failure s t) ∧
    get_status (check_health s t (Except.ok ())).2
      = NodeCondition.Healthy := by
  refine ⟨?_, rfl, ?_⟩
  · show (true, record_success (record_success s)) = (true, record_success s)
    rw [record_success_idem]
  · show (record_success (record_success s)).health_status = _
    rw [record_success_idem]
    exact record_success_status s

-- Load balancer ----------------------------------------------------------

/-- `LoadBalancer` from `src/load_balancer.rs`: the fixed node list and
the atomic round-robin cursor `next_index`. -/
structure LoadBalancer where
  nodes : List UpstreamNode
  next_index : Nat
deriving DecidableEq, Repr

/-- `LoadBalancer::new`: one node per config entry, cursor 0. -/
def LoadBalancer.new (names : List String) : LoadBalancer :=
  { nodes := names.map UpstreamNode.new, next_index := 0 }

/-- The scan loop of `choose_healthy_node` (`src/load_balancer.rs` lines
68-76): visit offsets `is` in order, probing index `(start + i) % len`,
and return the first index whose node passes `is_healthy`. -/
def scanNodes (nodes : List UpstreamNode) (now start : Nat) :
    List Nat → Option Nat
  | [] => none
  | i :: rest =>
    let index := (start + i) % nodes.length
    match nodes[index]? with
    | some node =>
      if is_healthy node now then some index else scanNodes nodes now start rest
    | none => none

/-- `LoadBalancer::choose_healthy_node` (`src/load_balancer.rs` lines
59-80): on an empty node set return `none` without touching the cursor;
otherwise fetch-add the cursor (the fetched value modulo the node count
is the scan start) and scan one full cycle for a healthy node. -/
def choose_healthy_node (lb : LoadBalancer) (now : Nat) :
    Option Nat × LoadBalancer :=
  if lb.nodes.isEmpty then (none, lb)
  else
    let total := lb.nodes.length
    let start := lb.next_index % total
    (scanNodes lb.nodes now start (List.range total),
      { lb with next_index := lb.next_index + 1 })

/-- `LoadBalancer::forward_request` (`src/load_balancer.rs` lines 87-93):
select a node; on selection failure surface the `NoHealthyNode` error
without any call; otherwise delegate to the chosen node's `call_rpc`
with the transport outcome oracle, writing the node's updated breaker
state back into the list. -/
def forward_request (lb : LoadBalancer) (now : Nat)
    (outcome : Except String Unit) : Except String Unit × LoadBalancer :=
  match choose_healthy_node lb now with
  | (none, lb') => (Except.error "No healthy nodes available", lb')
  | (some i, lb') =>
    match lb'.nodes[i]? with
    | some node =>
      let r := call_rpc node now outcome
      (r.1, { lb' with nodes := lb'.nodes.set i r.2 })
    | none => (Except.error "No healthy nodes available", lb')

-- Scan lemmas ------------------------------------------------------------

theorem mem_of_getElem_some {l : List UpstreamNode} {n : Nat}
    {a : UpstreamNode} (h : l[n]? = some a) : a ∈ l := by
  obtain ⟨hlt, rfl⟩ := List.getElem?_eq_some.mp h
  exact List.getElem_mem hlt

theorem scanNodes_none_of_all_unhealthy (nodes : List UpstreamNode)
    (now start : Nat) (h : ∀ n ∈ nodes, is_healthy n now = false) :
    ∀ is, scanNodes nodes now start is = none := by
  intro is
  induction is with
  | nil => rfl
  | cons i rest ih =>
    simp only [scanNodes]
    cases hidx : nodes[(start + i) % nodes.length]? with
    | none => rfl
    | some node =>
      dsimp only
      rw [h node (mem_of_getElem_some hidx)]
      simpa using ih

theorem scanNodes_some_healthy (nodes : List UpstreamNode)
    (now start : Nat) :
    ∀ is j, scanNodes nodes now start is = some j →
      ∃ node, nodes[j]? = some node ∧ is_healthy node now = true := by
  intro is
  induction is with
  | nil => intro j h; simp [scanNodes] at h
  | cons i rest ih =>
    intro j h
    simp only [scanNodes] at h
    cases hidx : nodes[(start + i) % nodes.length]? with
    | none => rw [hidx] at h; cases h
    | some node =>
      rw [hidx] at h
      dsimp only at h
      by_cases hh : is_healthy node now = true
      · rw [if_pos hh] at h
        cases h
        exact ⟨node, hidx, hh⟩
      · rw [if_neg hh] at h
        exact ih j h

theorem scanNodes_none_unhealthy_at (nodes : List UpstreamNode)
    (now start : Nat) (hlen : 0 < nodes.length) :
    ∀ is, scanNodes nodes now start is = none →
      ∀ i ∈ is, ∀ node, nodes[(start + i) % nodes.length]? = some node →
        is_healthy node now = false := by
  intro is
  induction is with
  | nil => intro _ i hi; cases hi
  | cons i0 rest ih =>
    intro h i hi node hidx
    simp only [scanNodes] at h
    rcases List.mem_cons.mp hi with rfl | hmem
    · rw [hidx] at h
      dsimp only at h
      by_cases hh : is_healthy node now = true
      · rw [if_pos hh] at h; cases h
      · simpa using hh
    · cases hidx0 : nodes[(start + i0) % nodes.length]? with
      | none =>
        exfalso
        have hlt : (start + i0) % nodes.length < nodes.length :=
          Nat.mod_lt _ hlen
        rw [List.getElem?_eq_none_iff] at hidx0
        omega
      | some node0 =>
        rw [hidx0] at h
        dsimp only at h
        by_cases hh0 : is_healthy node0 now = true
        · rw [if_pos hh0] at h; cases h
        · rw [if_neg hh0] at h
          exact ih h i hmem node hidx

theorem mod_coverage (len start j : Nat) (hlen : 0 < len) (hj : j < len) :
    ∃ i, i ∈ List.range len ∧ (start + i) % len = j := by
  have h1 : start % len < len := Nat.mod_lt _ hlen
  refine ⟨(len - start % len + j) % len,
    List.mem_range.mpr (Nat.mod_lt _ hlen), ?_⟩
  rw [Nat.add_mod_mod]
  have h0 : (start - start % len) % len = 0 :=
    Nat.sub_mod_eq_zero_of_mod_eq
      (by rw [Nat.mod_mod_of_dvd _ (dvd_refl len)])
  have h2 : start + (len - start % len + j)
      = (start - start % len) + (len + j) := by
    have hle : start % len ≤ start := Nat.mod_le start len
    generalize start % len = r at h1 hle
    omega
  rw [h2, Nat.add_mod, h0, Nat.zero_add, Nat.mod_mod_of_dvd _ (dvd_refl len),
    Nat.add_mod_left, Nat.mod_eq_of_lt hj]

-- C4 --------------------------------------------------------------------

/-- C4: selection returns no node exactly when the node set is empty or
every node fails `is_healthy`; a returned index always points at a node
passing `is_healthy`; selection never changes the node list itself; and
when selection fails, `forward_request` surfaces the `NoHealthyNode`
error with every node's breaker state untouched. -/
theorem choose_healthy_node_claim (lb : LoadBalancer) (now : Nat) :
    ((choose_healthy_node lb now).1 = none ↔
      lb.nodes = [] ∨ ∀ n ∈ lb.nodes, is_healthy n now = false) ∧
    (∀ i, (choose_healthy_node lb now).1 = some i →
      ∃ node, lb.nodes[i]? = some node ∧ is_healthy node now = true) ∧
    ((choose_healthy_node lb now).2.nodes = lb.nodes) ∧
    ((choose_healthy_node lb now).1 = none → ∀ outcome,
      (forward_request lb now outcome).1
          = Except.error "No healthy nodes available" ∧
      (forward_request lb now outcome).2.nodes = lb.nodes) := by
  by_cases hemp : lb.nodes = []
  · have hE : lb.nodes.isEmpty = true := List.isEmpty_iff.mpr hemp
    refine ⟨by simp [choose_healthy_node, hE, hemp], ?_, ?_, ?_⟩
    · intro i hi
      simp [choose_healthy_node, hE] at hi
    · simp [choose_healthy_node, hE]
    · intro _ outcome
      have hch : choose_healthy_node lb now = (none, lb) := by
        simp [choose_healthy_node, hE]
      simp [forward_request, hch]
  · have hE : lb.nodes.isEmpty = false := by
      simpa [List.isEmpty_iff] using hemp
    have hlen : 0 < lb.nodes.length := List.length_pos.mpr hemp
    have hch : choose_healthy_node lb now =
        (scanNodes lb.nodes now (lb.next_index % lb.nodes.length)
          (List.range lb.nodes.length),
          { lb with next_index := lb.next_index + 1 }) := by
      simp [choose_healthy_node, hE]
    refine ⟨?_, ?_, by rw [hch], ?_⟩
    · rw [hch]
      constructor
      · intro hnone
        right
        intro n hn
        obtain ⟨j, hjlen, hj⟩ := List.getElem_of_mem hn
        obtain ⟨i, hi, hcov⟩ :=
          mod_coverage lb.nodes.length (lb.next_index % lb.nodes.length) j
            hlen hjlen
        refine scanNodes_none_unhealthy_at lb.nodes now
          (lb.next_index % lb.nodes.length) hlen _ hnone i hi n ?_
        rw [hcov]
        rw [List.getElem?_eq_getElem hjlen, hj]
      · intro hall
        rcases hall with hall | hall
        · exact absurd hall hemp
        · exact scanNodes_none_of_all_unhealthy lb.nodes now _ hall _
    · intro i hi
      rw [hch] at hi
      exact scanNodes_some_healthy lb.nodes now _ _ i hi
    · intro hnone outcome
      have hpair : choose_healthy_node lb now =
          (none, (choose_healthy_node lb now).2) := by
        rw [← hnone]
      rw [forward_request, hpair]
      exact ⟨rfl, by rw [hch]⟩

/-- C4 witness: with the single node Unhealthy since instant 0 and the
clock at 0 (cooldown not elapsed), selection fails and `forward_request`
returns the routing error leaving the node untouched; with one fresh
Healthy node, selection returns that node and it passes `is_healthy`. -/
theorem choose_healthy_node_claim_witness :
    (∃ node,
      ({ nodes := [UpstreamNode.new "H"], next_index := 0 } :
          LoadBalancer).nodes[0]? = some node ∧
      is_healthy node 5 = true) ∧
    (forward_request
        { nodes := [{ name := "U"
                      health_status := NodeCondition.Unhealthy
                      last_failure_time := some 0
                      consecutive_failures := 3 }]
          next_index := 0 } 0 (Except.ok ())).1
      = Except.error "No healthy nodes available" ∧
    (forward_request
        { nodes := [{ name := "U"
                      health_status := NodeCondition.Unhealthy
                      last_failure_time := some 0
                      consecutive_failures := 3 }]
          next_index := 0 } 0 (Except.ok ())).2.nodes
      = [{ name := "U"
           health_status := NodeCondition.Unhealthy
           last_failure_time := some 0
           consecutive_failures := 3 }] := by
  refine ⟨?_, ?_⟩
  · exact (choose_healthy_node_claim
      { nodes := [UpstreamNode.new "H"], next_index := 0 } 5).2.1 0 (by decide)
  · exact (choose_healthy_node_claim
      { nodes := [{ name := "U"
                    health_status := NodeCondition.Unhealthy
                    last_failure_time := some 0
                    consecutive_failures := 3 }]
        next_index := 0 } 0).2.2.2 (by decide) (Except.ok ())

-- C5 --------------------------------------------------------------------

/-- `n` successive selections, threading the balancer state. -/
def selectRun (lb : LoadBalancer) (now : Nat) :
    Nat → List (Option Nat) × LoadBalancer
  | 0 => ([], lb)
  | n + 1 =>
    let r := choose_healthy_node lb now
    let rest := selectRun r.2 now n
    (r.1 :: rest.1, rest.2)

/-- C5: on a non-empty node set every selection advances the shared
cursor by exactly 1; over three Healthy nodes N1, N2, N3 with the cursor
at its initial value 0, six successive selections return the nodes in
rotating order N1, N2, N3, N1, N2, N3 — each node exactly twice — and
leave the cursor at 6. -/
theorem round_robin_claim :
    (∀ lb now, lb.nodes ≠ [] →
      (choose_healthy_node lb now).2.next_index = lb.next_index + 1) ∧
    (selectRun (LoadBalancer.new ["N1", "N2", "N3"]) 0 6).1
      = [some 0, some 1, some 2, some 0, some 1, some 2] ∧
    (selectRun (LoadBalancer.new ["N1", "N2", "N3"]) 0 6).2.next_index = 6 ∧
    ((selectRun (LoadBalancer.new ["N1", "N2", "N3"]) 0 6).1.map
        (fun o => o.bind fun i =>
          ((LoadBalancer.new ["N1", "N2", "N3"]).nodes[i]?).map
            UpstreamNode.name)
      = [some "N1", some "N2", some "N3",
         some "N1", some "N2", some "N3"]) := by
  refine ⟨?_, by decide, by decide, by decide⟩
  intro lb now h
  have hE : lb.nodes.isEmpty = false := by
    simpa [List.isEmpty_iff] using h
  simp [choose_healthy_node, hE]

/-- C5 witness: on a one-node balancer the cursor moves from 0 to 1. -/
theorem round_robin_claim_witness :
    (choose_healthy_node (LoadBalancer.new ["A"]) 0).2.next_index = 1 :=
  round_robin_claim.1 (LoadBalancer.new ["A"]) 0 (by decide)

-- Response cache ---------------------------------------------------------

/-- `CACHE_TTL` from `src/cache.rs`, in seconds. -/
def CACHE_TTL : Nat := 2

/-- `CACHE_CAPACITY` from `src/cache.rs`. -/
def CACHE_CAPACITY : Nat := 1000

/-- Modelled from the spec: the repo's `Cache` (`src/cache.rs`) wraps
`LruCache` from the external `lru_time_cache` crate, whose source is not
part of this repository; its TTL+LRU store is modelled from the spec.
Entries are kept in recency order — front is the least recently
accessed, back the most recently accessed — each carrying the instant of
its last put/get; an entry is expired once `ttl ≤ now - time`.  Cached
values are opaque JSON and modelled as strings. -/
structure LruCache where
  entries : List (String × String × Nat)
  ttl : Nat
  capacity : Nat
deriving DecidableEq, Repr

/-- `Cache::new` (`src/cache.rs` lines 33-40). -/
def Cache.new : LruCache :=
  { entries := [], ttl := CACHE_TTL, capacity := CACHE_CAPACITY }

/-- Modelled from the spec: `get` (`src/cache.rs` lines 43-50) returns
the stored value if present and not expired, refreshing the entry's
recency and last-access instant; a lookup that finds an expired entry
removes it and returns nothing; a plain miss has no effect. -/
def Cache.get (c : LruCache) (k : String) (now : Nat) :
    Option String × LruCache :=
  match c.entries.find? (fun e => e.1 == k) with
  | some e =>
    if now - e.2.2 < c.ttl then
      (some e.2.1,
        { c with
            entries := (c.entries.filter fun x => x.1 != k) ++ [(k, e.2.1, now)] })
    else
      (none, { c with entries := c.entries.filter fun x => x.1 != k })
  | none => (none, c)

/-- Modelled from the spec: `put` (`src/cache.rs` lines 53-56) inserts or
overwrites the entry as most recently used with a fresh TTL clock;
expired entries do not count toward occupancy, and when the store then
exceeds its capacity the least recently accessed (front-most) live entry
is evicted. -/
def Cache.put (c : LruCache) (k v : String) (now : Nat) : LruCache :=
  let live := c.entries.filter fun e =>
    decide (now - e.2.2 < c.ttl) && e.1 != k
  let inserted := live ++ [(k, v, now)]
  { c with
      entries :=
        if c.capacity < inserted.length then inserted.drop 1 else inserted }

/-- Insert each key of `ks` in order (value = key), all at instant `now`. -/
def Cache.putAll (c : LruCache) (ks : List String) (now : Nat) : LruCache :=
  ks.foldl (fun acc k => Cache.put acc k k now) c

-- Cache lemmas -----------------------------------------------------------

theorem find?_key_append (xs : List (String × String × Nat))
    (k v : String) (t : Nat) (h : ∀ e ∈ xs, (e.1 == k) = false) :
    (xs ++ [(k, v, t)]).find? (fun e => e.1 == k) = some (k, v, t) := by
  rw [List.find?_append]
  have hnone : xs.find? (fun e => e.1 == k) = none := by
    rw [List.find?_eq_none]
    intro x hx
    simp [h x hx]
  rw [hnone]
  simp [List.find?]

theorem cache_put_filter_id (c : LruCache) (k : String) (now : Nat)
    (hl : ∀ e ∈ c.entries, now - e.2.2 < c.ttl)
    (hk : k ∉ c.entries.map fun e => e.1) :
    (c.entries.filter fun e =>
      decide (now - e.2.2 < c.ttl) && e.1 != k) = c.entries := by
  apply List.filter_eq_self.mpr
  intro e he
  have h1 : decide (now - e.2.2 < c.ttl) = true := by simp [hl e he]
  have h2 : (e.1 != k) = true := by
    rw [bne_iff_ne]
    intro heq
    exact hk (heq ▸ List.mem_map_of_mem (fun e => e.1) he)
  rw [h1, h2]
  rfl

theorem cache_put_evicts_lru (c : LruCache) (k v : String) (now : Nat)
    (hcap : 0 < c.capacity) (hfull : c.entries.length = c.capacity)
    (hl : ∀ e ∈ c.entries, now - e.2.2 < c.ttl)
    (hk : k ∉ c.entries.map fun e => e.1) :
    (Cache.put c k v now).entries = c.entries.drop 1 ++ [(k, v, now)] := by
  simp only [Cache.put]
  rw [cache_put_filter_id c k now hl hk]
  have hover : c.capacity < (c.entries ++ [(k, v, now)]).length := by
    simp only [List.length_append, List.length_singleton]
    omega
  rw [if_pos hover]
  exact List.drop_append_of_le_length (by omega)

theorem cache_put_no_evict (c : LruCache) (k v : String) (now : Nat)
    (hroom : c.entries.length < c.capacity)
    (hl : ∀ e ∈ c.entries, now - e.2.2 < c.ttl)
    (hk : k ∉ c.entries.map fun e => e.1) :
    (Cache.put c k v now).entries = c.entries ++ [(k, v, now)] := by
  simp only [Cache.put]
  rw [cache_put_filter_id c k now hl hk]
  have hno : ¬ c.capacity < (c.entries ++ [(k, v, now)]).length := by
    simp only [List.length_append, List.length_singleton]
    omega
  rw [if_neg hno]

theorem cache_put_ttl (c : LruCache) (k v : String) (now : Nat) :
    (Cache.put c k v now).ttl = c.ttl := rfl

theorem cache_put_capacity (c : LruCache) (k v : String) (now : Nat) :
    (Cache.put c k v now).capacity = c.capacity := rfl

theorem cache_putAll_fill (now : Nat) :
    ∀ (ks : List String) (c : LruCache),
      ((c.entries.map fun e => e.1) ++ ks).Nodup →
      (∀ e ∈ c.entries, e.2.2 = now) →
      0 < c.ttl →
      c.entries.length + ks.length ≤ c.capacity →
      (Cache.putAll c ks now).entries
        = c.entries ++ ks.map fun k => (k, k, now) := by
  intro ks
  induction ks with
  | nil =>
    intro c _ _ _ _
    simp [Cache.putAll]
  | cons k rest ih =>
    intro c hnodup htime httl hlen
    obtain ⟨hnk, hnrest, hdisj⟩ := List.nodup_append.mp hnodup
    have hkfresh : k ∉ c.entries.map fun e => e.1 := by
      intro hmem
      exact hdisj hmem (List.mem_cons_self k rest)
    have hput : (Cache.put c k k now).entries
        = c.entries ++ [(k, k, now)] :=
      cache_put_no_evict c k k now (by simp at hlen; omega)
        (fun e he => by simp [htime e he, httl]) hkfresh
    show (Cache.putAll (Cache.put c k k now) rest now).entries = _
    have hrec := ih (Cache.put c k k now) ?_ ?_ ?_ ?_
    · rw [hrec, hput]
      simp
    · rw [hput]
      have hkeys : ((c.entries ++ [(k, k, now)]).map fun e => e.1)
          = (c.entries.map fun e => e.1) ++ [k] := by simp
      rw [hkeys, List.append_assoc]
      simpa [List.singleton_append] using hnodup
    · rw [hput]
      intro e he
      rcases List.mem_append.mp he with he | he
      · exact htime e he
      · simp at he
        rw [he]
    · rw [cache_put_ttl]
      exact httl
    · rw [hput, cache_put_capacity]
      simp at hlen ⊢
      omega

theorem cache_putAll_ttl (now : Nat) :
    ∀ (ks : List String) (c : LruCache), (Cache.putAll c ks now).ttl = c.ttl := by
  intro ks
  induction ks with
  | nil => intro c; rfl
  | cons k rest ih =>
    intro c
    show (Cache.putAll (Cache.put c k k now) rest now).ttl = c.ttl
    rw [ih, cache_put_ttl]

theorem cache_putAll_capacity (now : Nat) :
    ∀ (ks : List String) (c : LruCache),
      (Cache.putAll c ks now).capacity = c.capacity := by
  intro ks
  induction ks with
  | nil => intro c; rfl
  | cons k rest ih =>
    intro c
    show (Cache.putAll (Cache.put c k k now) rest now).capacity = c.capacity
    rw [ih, cache_put_capacity]

-- C6 --------------------------------------------------------------------

/-- C6: on a full cache (occupancy = capacity, all entries live) a put of
a fresh key evicts exactly the front — least recently accessed — entry;
with capacity 2, putting k1, k2, k3 with no reads in between leaves k1
evicted while k2 and k3 are retrievable; and in general inserting C+1
distinct keys into an empty capacity-C cache with no intervening reads
leaves exactly the first-inserted key evicted. -/
theorem cache_eviction_claim :
    (∀ (c : LruCache) (k v : String) (now : Nat),
      0 < c.capacity → c.entries.length = c.capacity →
      (∀ e ∈ c.entries, now - e.2.2 < c.ttl) →
      k ∉ (c.entries.map fun e => e.1) →
      (Cache.put c k v now).entries = c.entries.drop 1 ++ [(k, v, now)]) ∧
    ((Cache.get
        (Cache.put
          (Cache.put
            (Cache.put { entries := [], ttl := 2, capacity := 2 }
              "k1" "a" 0)
            "k2" "b" 0)
          "k3" "c" 0) "k1" 0).1 = none ∧
      (Cache.get
        (Cache.get
          (Cache.put
            (Cache.put
              (Cache.put { entries := [], ttl := 2, capacity := 2 }
                "k1" "a" 0)
              "k2" "b" 0)
            "k3" "c" 0) "k1" 0).2 "k2" 0).1 = some "b" ∧
      (Cache.get
        (Cache.get
          (Cache.get
            (Cache.put
              (Cache.put
                (Cache.put { entries := [], ttl := 2, capacity := 2 }
                  "k1" "a" 0)
                "k2" "b" 0)
              "k3" "c" 0) "k1" 0).2 "k2" 0).2 "k3" 0).1 = some "c") ∧
    (∀ (C ttl : Nat) (ks : List String) (now : Nat),
      0 < C → 0 < ttl → ks.Nodup → ks.length = C + 1 →
      ((Cache.putAll { entries := [], ttl := ttl, capacity := C } ks
          now).entries.map fun e => e.1)
        = ks.drop 1) := by
  refine ⟨cache_put_evicts_lru, by decide, ?_⟩
  intro C ttl ks now hC httl hnodup hlen
  have hne : ks ≠ [] := by
    intro h
    rw [h] at hlen
    simp at hlen
  obtain ⟨ys, z, rfl⟩ : ∃ ys z, ks = ys ++ [z] :=
    ⟨ks.dropLast, ks.getLast hne, (List.dropLast_append_getLast hne).symm⟩
  have hys : ys.length = C := by
    rw [List.length_append, List.length_singleton] at hlen
    omega
  have hput : Cache.putAll { entries := [], ttl := ttl, capacity := C }
        (ys ++ [z]) now
      = Cache.put
          (Cache.putAll { entries := [], ttl := ttl, capacity := C } ys now)
          z z now := by
    simp [Cache.putAll, List.foldl_append]
  rw [hput]
  obtain ⟨hys_nodup, _, hdisj⟩ := List.nodup_append.mp hnodup
  have hzys : z ∉ ys := fun hm => hdisj hm (by simp)
  have hfill := cache_putAll_fill now ys
    { entries := [], ttl := ttl, capacity := C }
    (by simpa using hys_nodup) (by simp) httl (by simp [hys])
  have hkeys : ((Cache.putAll { entries := [], ttl := ttl, capacity := C }
        ys now).entries.map fun e => e.1) = ys := by
    rw [hfill]
    simp only [List.nil_append, List.map_map]
    exact List.map_id ys
  have hevict := cache_put_evicts_lru
    (Cache.putAll { entries := [], ttl := ttl, capacity := C } ys now)
    z z now
    (by rw [cache_putAll_capacity]; exact hC)
    (by rw [hfill, cache_putAll_capacity]; simpa using hys)
    (by
      intro e he
      rw [hfill] at he
      simp at he
      obtain ⟨a, _, rfl⟩ := he
      rw [cache_putAll_ttl]
      simpa using httl)
    (by rw [hkeys]; exact hzys)
  rw [hevict, hfill]
  simp only [List.nil_append, List.map_append, List.map_drop, List.map_map]
  have hfst : ((fun e => e.1) ∘ fun k => ((k, k, now) : String × String × Nat))
      = id := rfl
  rw [hfst, List.map_id]
  show List.drop 1 ys ++ [z] = List.drop 1 (ys ++ [z])
  rw [List.drop_append_of_le_length (by omega)]

/-- C6 witness: a full capacity-2 cache holding x (LRU) and y (MRU)
evicts exactly x on putting fresh key z; and the three distinct keys
k1, k2, k3 pushed into an empty capacity-2 cache leave keys k2, k3. -/
theorem cache_eviction_claim_witness :
    (Cache.put
        { entries := [("x", "1", 0), ("y", "2", 0)], ttl := 60,
          capacity := 2 } "z" "3" 0).entries
      = [("y", "2", 0), ("z", "3", 0)] ∧
    ((Cache.putAll { entries := [], ttl := 2, capacity := 2 }
        ["k1", "k2", "k3"] 0).entries.map fun e => e.1) = ["k2", "k3"] := by
  constructor
  · exact cache_eviction_claim.1
      { entries := [("x", "1", 0), ("y", "2", 0)], ttl := 60, capacity := 2 }
      "z" "3" 0 (by decide) (by decide) (by decide) (by decide)
  · exact cache_eviction_claim.2.2 2 2 ["k1", "k2", "k3"] 0
      (by decide) (by decide) (by decide) (by decide)

-- C7 --------------------------------------------------------------------

theorem cache_live_filter_fresh (xs : List (String × String × Nat))
    (k : String) (now ttl : Nat) :
    ∀ e ∈ xs.filter fun e => decide (now - e.2.2 < ttl) && e.1 != k,
      (e.1 == k) = false := by
  intro e he
  have h2 := (List.mem_filter.mp he).2
  have h3 : (e.1 != k) = true := by
    cases hbe : (e.1 != k) with
    | true => rfl
    | false =>
      rw [hbe, Bool.and_false] at h2
      cases h2
  rw [bne_iff_ne] at h3
  exact beq_eq_false_iff_ne.mpr h3

theorem cache_put_then_get (c : LruCache) (k v : String) (now : Nat)
    (httl : 0 < c.ttl) (hcap : 0 < c.capacity) :
    (Cache.get (Cache.put c k v now) k now).1 = some v := by
  simp only [Cache.put]
  set live := c.entries.filter fun e =>
    decide (now - e.2.2 < c.ttl) && e.1 != k with hlive
  have hfresh : ∀ e ∈ live, (e.1 == k) = false := by
    rw [hlive]
    exact cache_live_filter_fresh c.entries k now c.ttl
  by_cases hover : c.capacity < (live ++ [(k, v, now)]).length
  · rw [if_pos hover]
    have hlen : 1 ≤ live.length := by
      rw [List.length_append, List.length_singleton] at hover
      omega
    rw [List.drop_append_of_le_length hlen]
    have hfresh' : ∀ e ∈ live.drop 1, (e.1 == k) = false :=
      fun e he => hfresh e (List.mem_of_mem_drop he)
    simp only [Cache.get, find?_key_append _ k v now hfresh']
    rw [if_pos (by simpa using httl)]
  · rw [if_neg hover]
    simp only [Cache.get, find?_key_append _ k v now hfresh]
    rw [if_pos (by simpa using httl)]

theorem cache_expired_get (c : LruCache) (k : String) (now : Nat)
    (h : ∀ e ∈ c.entries, e.1 = k → e.2.2 + c.ttl ≤ now) :
    (Cache.get c k now).1 = none := by
  simp only [Cache.get]
  cases hf : c.entries.find? (fun e => e.1 == k) with
  | none => rfl
  | some e =>
    have hmem := List.mem_of_find?_eq_some hf
    have hk : e.1 = k := by
      have hkey := List.find?_some hf
      simpa using hkey
    have hexp := h e hmem hk
    have hlt : ¬ (now - e.2.2 < c.ttl) := by omega
    dsimp only
    rw [if_neg hlt]

theorem cache_hit_refreshes (c : LruCache) (k v : String) (now : Nat)
    (h : (Cache.get c k now).1 = some v) :
    (Cache.get c k now).2.entries.getLast? = some (k, v, now) := by
  simp only [Cache.get] at h ⊢
  cases hf : c.entries.find? (fun e => e.1 == k) with
  | none =>
    rw [hf] at h
    simp at h
  | some e =>
    rw [hf] at h
    dsimp only at h ⊢
    by_cases hlt : now - e.2.2 < c.ttl
    · rw [if_pos hlt] at h ⊢
      obtain rfl : e.2.1 = v := Option.some.inj h
      exact List.getLast?_concat _
    · rw [if_neg hlt] at h
      cases h

/-- C7: a get of key k immediately after putting (k, v) returns v; a get
of k once at least TTL has elapsed since the instant stored for k (its
last put or refreshing get) returns nothing; and a hit moves the entry,
restamped at the current instant, to the most-recently-used end of the
recency order, where it is least likely to be evicted next. -/
theorem cache_get_claim :
    (∀ (c : LruCache) (k v : String) (now : Nat),
      0 < c.ttl → 0 < c.capacity →
      (Cache.get (Cache.put c k v now) k now).1 = some v) ∧
    (∀ (c : LruCache) (k : String) (now : Nat),
      (∀ e ∈ c.entries, e.1 = k → e.2.2 + c.ttl ≤ now) →
      (Cache.get c k now).1 = none) ∧
    (∀ (c : LruCache) (k v : String) (now : Nat),
      (Cache.get c k now).1 = some v →
      (Cache.get c k now).2.entries.getLast? = some (k, v, now)) :=
  ⟨cache_put_then_get, cache_expired_get, cache_hit_refreshes⟩

/-- C7 witness: on the repo cache (TTL 2s, capacity 1000), a get right
after a put returns the value; an entry stamped at instant 0 is gone at
instant 2; a hit at instant 1 moves the entry, restamped, to the MRU
end. -/
theorem cache_get_claim_witness :
    (Cache.get (Cache.put Cache.new "k" "v" 7) "k" 7).1 = some "v" ∧
    (Cache.get { entries := [("k", "v", 0)], ttl := 2, capacity := 1000 }
        "k" 2).1 = none ∧
    (Cache.get { entries := [("k", "v", 0), ("a", "x", 0)], ttl := 2, capacity := 1000 } "k" 1).2.entries.getLast? = some ("k", "v", 1) := by
  refine ⟨?_, ?_, ?_⟩
  · exact cache_get_claim.1 Cache.new "k" "v" 7 (by decide) (by decide)
  · exact cache_get_claim.2.1
      { entries := [("k", "v", 0)], ttl := 2, capacity := 1000 } "k" 2
      (by decide)
  · exact cache_get_claim.2.2
      { entries := [("k", "v", 0), ("a", "x", 0)], ttl := 2, capacity := 1000 }
      "k" "v" 1 (by decide)
